import Mathlib

/-!
# Verification of the session-scoped download-job manager (`backend_sessions.py`)

Shallow embedding of the job registry of the repository
`Download_videos_youtube`: the session store, the job record, the
resolution worker, the retention sweep, and the small helper policies
(`_get_format_selector`, `_sanitize_filename`).

Modelling conventions:
* Python dicts become association lists (`List (key × value)`) with
  replace-in-place-or-append insertion, matching dict update semantics.
* Timestamps are natural numbers (seconds).  `datetime.now()` becomes an
  explicit `now : Nat` parameter; the 24-hour TTL cutoff is
  `now - SESSION_TIMEOUT_HOURS * 3600`.
* Python string truthiness (`if s:` on an optional string) is `pyTruthy`.
* The external resolver call (`yt_dlp ... extract_info`) is modelled as a
  parameter of type `Except String Info`: an exception with message, or
  the info dict with the fields the worker reads.
* Filenames are manipulated as `List Char`.
-/

namespace Sessions

/-- Python truthiness of an optional string: `None` and `''` are falsy. -/
def pyTruthy : Option (List Char) → Bool
  | none => false
  | some s => !s.isEmpty

/-- Config constant `MAX_SESSIONS = 1000`. -/
def MAX_SESSIONS : Nat := 1000

/-- Config constant `SESSION_TIMEOUT_HOURS = 24`. -/
def SESSION_TIMEOUT_HOURS : Nat := 24

/-- The age cutoff computed in `cleanup_old_sessions`:
`cutoff = datetime.now() - timedelta(hours=SESSION_TIMEOUT_HOURS)`. -/
def cutoffOf (now : Nat) : Nat := now - SESSION_TIMEOUT_HOURS * 3600

/-- One job record, the dict created in `start_download` and mutated by the
worker and by `cancel_job`. -/
structure Job where
  id : String
  session_id : String
  url : String
  status : String
  progress : Nat
  created_at : Nat
  completed_at : Option Nat
  error : Option String
  download_url : Option (List Char)
  filename : Option (List Char)
  file_size : Nat
  title : List Char
  duration : Nat
  quality_requested : String
deriving Repr, DecidableEq

/-- A session's job collection: dict from job id to job. -/
abbrev Jobs := List (String × Job)

/-- The global `session_jobs` dict: session id to job collection. -/
abbrev Store := List (String × Jobs)

/-- Dict lookup on an association list. -/
def lookupA {α : Type} (k : String) : List (String × α) → Option α
  | [] => none
  | (k', v) :: rest => if k = k' then some v else lookupA k rest

/-- Dict write `d[k] = v`: replace in place if present, else append. -/
def insertA {α : Type} (k : String) (v : α) : List (String × α) → List (String × α)
  | [] => [(k, v)]
  | (k', v') :: rest => if k = k' then (k, v) :: rest else (k', v') :: insertA k v rest

/-- The job collection a session id currently maps to (empty when absent). -/
def sessionJobsOf (sid : String) (st : Store) : Jobs :=
  (lookupA sid st).getD []

/-- `SessionDownloadManager.get_session_jobs`: returns the session's job
dict, inserting an empty one into `session_jobs` when the session id was
never seen.  Returns the collection together with the updated store. -/
def get_session_jobs (sid : String) (st : Store) : Jobs × Store :=
  match lookupA sid st with
  | some jobs => (jobs, st)
  | none => ([], insertA sid [] st)

/-- `SessionDownloadManager.get_job_status`: session-scoped lookup of a job,
`None` when the id is not in this session's collection.  Also returns the
store, which `get_session_jobs` may have extended. -/
def get_job_status (sid jid : String) (st : Store) : Option Job × Store :=
  let (jobs, st') := get_session_jobs sid st
  (lookupA jid jobs, st')

/-- `SessionDownloadManager.list_session_jobs`: all jobs of the session, and
the (possibly extended) store. -/
def list_session_jobs (sid : String) (st : Store) : List Job × Store :=
  let (jobs, st') := get_session_jobs sid st
  (jobs.map Prod.snd, st')

/-- `SessionDownloadManager.cancel_job`: if the job exists in this session,
set its status to `'cancelled'` and its `completed_at` to now, and return
`True`; otherwise return `False`. -/
def cancel_job (sid jid : String) (now : Nat) (st : Store) : Bool × Store :=
  let (jobs, st') := get_session_jobs sid st
  match lookupA jid jobs with
  | some job =>
      (true, insertA sid
        (insertA jid { job with status := "cancelled", completed_at := some now } jobs) st')
  | none => (false, st')

/-- The age test inside `cleanup_old_sessions`: a job keeps its session alive
iff `created > cutoff`; so the session counts as all-old iff no job's
`created_at` is strictly newer than the cutoff. -/
def sessionAllOld (cutoff : Nat) (jobs : Jobs) : Bool :=
  jobs.all fun je => !decide (cutoff < je.2.created_at)

/-- First phase of `cleanup_old_sessions`: delete every session whose job
collection is non-empty and all of whose jobs are at or past the cutoff
(`if all_old and jobs`). -/
def ageSweep (cutoff : Nat) (st : Store) : Store :=
  st.filter fun p => !(sessionAllOld cutoff p.2 && !p.2.isEmpty)

/-- The lexicographic order on session keys (character lists by code
point), the order Python's `sorted` uses on the key strings. -/
def keyLe (a b : String) : Prop := a.data ≤ b.data

instance : DecidableRel keyLe := fun a b => inferInstanceAs (Decidable (a.data ≤ b.data))

instance : IsTotal String keyLe := ⟨fun a b => le_total a.data b.data⟩

instance : IsTrans String keyLe := ⟨fun _ _ _ h h' => le_trans h h'⟩

/-- Second phase of `cleanup_old_sessions`: when the session count exceeds
the maximum, delete the first `count - maximum` session ids in ascending
sort order (`sorted(session_jobs.keys())[:len(session_jobs) - MAX_SESSIONS]`). -/
def capacitySweep (maxS : Nat) (st : Store) : Store :=
  if st.length > maxS then
    let oldest := (List.insertionSort keyLe (st.map Prod.fst)).take (st.length - maxS)
    st.filter fun p => !decide (p.1 ∈ oldest)
  else st

/-- `cleanup_old_sessions`: the age sweep followed by the capacity sweep. -/
def cleanup_old_sessions (now : Nat) (st : Store) : Store :=
  capacitySweep MAX_SESSIONS (ageSweep (cutoffOf now) st)

/-- `SessionDownloadManager._get_format_selector`. -/
def get_format_selector (quality : String) (format_id : Option String) : String :=
  match format_id with
  | some f =>
      if !f.isEmpty then f
      else if quality = "audio" then "bestaudio/best"
      else if quality = "best" then "best"
      else quality
  | none =>
      if quality = "audio" then "bestaudio/best"
      else if quality = "best" then "best"
      else quality

/-- The characters removed by `_sanitize_filename`'s regex `[<>:"/\\|?*]`. -/
def BAD_CHARS : List Char := ['<', '>', ':', '"', '/', '\\', '|', '?', '*']

/-- `re.sub(r'[<>:"/\\|?*]', '', filename)`. -/
def stripBad (l : List Char) : List Char :=
  l.filter fun c => !decide (c ∈ BAD_CHARS)

/-- Python `filename.rsplit('.', 1)` when `'.' in filename`, and
`(filename, '')` otherwise: split at the last dot. -/
def rsplitDot (l : List Char) : List Char × List Char :=
  match l.reverse.span fun c => c ≠ '.' with
  | (_, []) => (l, [])
  | (extRev, _dot :: nameRev) => (nameRev.reverse, extRev.reverse)

/-- `SessionDownloadManager._sanitize_filename` on the character list of the
filename: strip illegal characters; if still longer than 100 characters,
keep the first 90 characters of the base name and reattach the extension
(with its dot only when the extension is non-empty). -/
def sanitize_filename (f : List Char) : List Char :=
  let s := stripBad f
  if s.length > 100 then
    let ne := rsplitDot s
    ne.1.take 90 ++ (if ne.2.isEmpty then [] else '.' :: ne.2)
  else s

/-- One entry of `info['formats']`, with the only field the selection loop
reads. -/
structure Format where
  url : Option (List Char)
deriving Repr, DecidableEq

/-- The resolver's info dict, restricted to the fields
`_process_download_link` reads.  Optional fields model `info.get(...)`. -/
structure Info where
  url : Option (List Char)
  formats : List Format
  title : Option (List Char)
  ext : Option (List Char)
  filesize : Option Nat
  filesize_approx : Option Nat
  duration : Option Nat
deriving Repr, DecidableEq

/-- The worker's URL selection: take `info.get('url')` if truthy, else scan
`info.get('formats', [])` in order for the first entry with a truthy
`'url'`; `none` means no usable URL was obtained (the code raises). -/
def selectDownloadUrl (info : Info) : Option (List Char) :=
  let du0 := info.url
  let du1 :=
    if pyTruthy du0 then du0
    else
      match info.formats.find? (fun f => pyTruthy f.url) with
      | some f => f.url
      | none => du0
  if pyTruthy du1 then du1 else none

/-- `info.get('filesize') or info.get('filesize_approx', 0)`:
Python `or` falls through on `None` and on `0`. -/
def fileSizeOf (info : Info) : Nat :=
  match info.filesize with
  | some n => if n = 0 then info.filesize_approx.getD 0 else n
  | none => info.filesize_approx.getD 0

/-- The body of the `try:` block of `_process_download_link`, after the
resolver call has been factored out as `res`: an exception is an
`Except.error` carrying `str(e)`. -/
def processInner (res : Except String Info) (now : Nat) (job : Job) : Except String Job :=
  match res with
  | .error e => .error e
  | .ok info =>
      match selectDownloadUrl info with
      | none => .error "No se pudo obtener URL de descarga"
      | some du =>
          let title := info.title.getD ['v', 'i', 'd', 'e', 'o']
          let ext := info.ext.getD ['m', 'p', '4']
          let filename := sanitize_filename (title ++ '.' :: ext)
          .ok { job with
                status := "ready"
                progress := 100
                download_url := some du
                filename := some filename
                file_size := fileSizeOf info
                title := title
                duration := info.duration.getD 0
                completed_at := some now }

/-- `SessionDownloadManager._process_download_link`: the whole body runs
under `try/except Exception`; any failure is converted into the `'error'`
terminal state on the job, and the worker always returns normally. -/
def processDownloadLink (res : Except String Info) (now : Nat) (job : Job) : Job :=
  match processInner res now job with
  | .ok j => j
  | .error e => { job with status := "error", error := some e, completed_at := some now }

/-- A concrete job in the terminal `'ready'` state, used to evaluate the
store operations on explicit inputs. -/
def readyJobEx : Job :=
  { id := "j1"
    session_id := "s1"
    url := "https://youtube.com/watch?v=X"
    status := "ready"
    progress := 100
    created_at := 10
    completed_at := some 20
    error := none
    download_url := some ['d', 'u']
    filename := some ['f', '.', 'm', 'p', '4']
    file_size := 5
    title := ['f']
    duration := 3
    quality_requested := "best" }

/-- The initial job dict built by `start_download`. -/
def initialJob (sid jid url : String) (now : Nat) (quality : String) : Job :=
  { id := jid
    session_id := sid
    url := url
    status := "processing"
    progress := 0
    created_at := now
    completed_at := none
    error := none
    download_url := none
    filename := none
    file_size := 0
    title := "Obteniendo informacion...".toList
    duration := 0
    quality_requested := quality }

/-- `SessionDownloadManager.start_download`, state part: ensure the session
exists and record the fresh job (the generated uuid is the parameter
`jid`). -/
def start_download (sid jid url quality : String) (now : Nat) (st : Store) : Store :=
  insertA sid (insertA jid (initialJob sid jid url now quality) (sessionJobsOf sid st)) st

/-! ## Association-list lemmas -/

theorem lookupA_insertA_self {α : Type} (k : String) (v : α) (l : List (String × α)) :
    lookupA k (insertA k v l) = some v := by
  induction l with
  | nil => simp [insertA, lookupA]
  | cons p rest ih =>
      obtain ⟨k', v'⟩ := p
      by_cases h : k = k'
      · simp [insertA, lookupA, h]
      · simp [insertA, lookupA, h, ih]

theorem lookupA_insertA_ne {α : Type} (k k' : String) (v : α) (l : List (String × α))
    (h : k ≠ k') : lookupA k (insertA k' v l) = lookupA k l := by
  induction l with
  | nil => simp [insertA, lookupA, h]
  | cons p rest ih =>
      obtain ⟨k₀, v₀⟩ := p
      by_cases h0 : k' = k₀
      · subst h0
        simp [insertA, lookupA, h]
      · by_cases h1 : k = k₀ <;> simp [insertA, lookupA, h0, h1, ih]

theorem get_session_jobs_fst (sid : String) (st : Store) :
    (get_session_jobs sid st).1 = sessionJobsOf sid st := by
  unfold get_session_jobs sessionJobsOf
  cases lookupA sid st <;> simp

theorem cancel_job_found (st : Store) (sid jid : String) (job : Job) (now : Nat)
    (hjob : lookupA jid (sessionJobsOf sid st) = some job) :
    cancel_job sid jid now st =
      (true, insertA sid
        (insertA jid { job with status := "cancelled", completed_at := some now }
          (sessionJobsOf sid st))
        ((get_session_jobs sid st).2)) := by
  unfold cancel_job
  cases h : lookupA sid st with
  | some jobs =>
      simp only [sessionJobsOf, h, Option.getD_some] at hjob
      simp [get_session_jobs, h, hjob, sessionJobsOf]
  | none =>
      simp [sessionJobsOf, h, lookupA] at hjob

/-! ## Claim theorems -/

/-- C1.  Session isolation of job lookup: when a job id is stored under
session `B` but absent from session `A`'s collection (job ids are globally
unique), `get_job_status` called with session `A` and that job id returns
`none`, the API layer's 404 signal. -/
theorem get_job_status_session_isolation (st : Store) (A B jid : String) (job : Job)
    (hAB : A ≠ B)
    (hB : lookupA jid (sessionJobsOf B st) = some job)
    (hA : lookupA jid (sessionJobsOf A st) = none) :
    (get_job_status A jid st).1 = none := by
  unfold get_job_status
  simpa [get_session_jobs_fst] using hA

theorem get_job_status_session_isolation_witness :
    ("A" : String) ≠ "B" ∧
    lookupA "j1" (sessionJobsOf "B" [("B", [("j1", readyJobEx)])]) = some readyJobEx ∧
    lookupA "j1" (sessionJobsOf "A" [("B", [("j1", readyJobEx)])]) = none ∧
    (get_job_status "A" "j1" [("B", [("j1", readyJobEx)])]).1 = none :=
  ⟨by decide, by decide, by decide,
    get_job_status_session_isolation _ "A" "B" "j1" readyJobEx (by decide) (by decide) (by decide)⟩

/-- C2, counterexample.  Cancelling a job whose status is the terminal
`'ready'` does not leave the status unchanged: `cancel_job` reports success
but rewrites the status to `'cancelled'`. -/
theorem cancel_job_changes_ready_status :
    readyJobEx.status = "ready" ∧
    (cancel_job "s1" "j1" 99 [("s1", [("j1", readyJobEx)])]).1 = true ∧
    (lookupA "j1" (sessionJobsOf "s1"
        (cancel_job "s1" "j1" 99 [("s1", [("j1", readyJobEx)])]).2)).map Job.status
      = some "cancelled" := by
  refine ⟨rfl, ?_, ?_⟩ <;> decide

/-- C2, amended.  Cancelling an existing terminal (`'ready'` or `'error'`)
job reports success and leaves the result fields (`download_url`,
`filename`, `file_size`) unchanged, but it overwrites the status with
`'cancelled'` and the completion timestamp with the current time. -/
theorem cancel_job_terminal_amended (st : Store) (sid jid : String) (job : Job) (now : Nat)
    (hjob : lookupA jid (sessionJobsOf sid st) = some job)
    (hterm : job.status = "ready" ∨ job.status = "error") :
    (cancel_job sid jid now st).1 = true ∧
    ∃ j', lookupA jid (sessionJobsOf sid (cancel_job sid jid now st).2) = some j' ∧
      j'.status = "cancelled" ∧ j'.completed_at = some now ∧
      j'.download_url = job.download_url ∧ j'.filename = job.filename ∧
      j'.file_size = job.file_size := by
  rw [cancel_job_found st sid jid job now hjob]
  refine ⟨rfl, { job with status := "cancelled", completed_at := some now }, ?_,
    rfl, rfl, rfl, rfl, rfl⟩
  simp [sessionJobsOf, lookupA_insertA_self]

theorem cancel_job_terminal_amended_witness :
    lookupA "j1" (sessionJobsOf "s1" [("s1", [("j1", readyJobEx)])]) = some readyJobEx ∧
    ((cancel_job "s1" "j1" 99 [("s1", [("j1", readyJobEx)])]).1 = true ∧
     ∃ j', lookupA "j1" (sessionJobsOf "s1"
         (cancel_job "s1" "j1" 99 [("s1", [("j1", readyJobEx)])]).2) = some j' ∧
       j'.status = "cancelled" ∧ j'.completed_at = some 99 ∧
       j'.download_url = readyJobEx.download_url ∧ j'.filename = readyJobEx.filename ∧
       j'.file_size = readyJobEx.file_size) :=
  ⟨by decide,
    cancel_job_terminal_amended [("s1", [("j1", readyJobEx)])] "s1" "j1" readyJobEx 99
      (by decide) (Or.inl rfl)⟩

/-- C10.  `cancel_job` on any existing job, whatever its current status and
whatever completion timestamp it already carries, overwrites `completed_at`
with the current time (and the status with `'cancelled'`) while reporting
success. -/
theorem cancel_job_overwrites_completed_at (st : Store) (sid jid : String) (job : Job)
    (now : Nat)
    (hjob : lookupA jid (sessionJobsOf sid st) = some job) :
    (cancel_job sid jid now st).1 = true ∧
    ∃ j', lookupA jid (sessionJobsOf sid (cancel_job sid jid now st).2) = some j' ∧
      j'.completed_at = some now ∧ j'.status = "cancelled" := by
  rw [cancel_job_found st sid jid job now hjob]
  refine ⟨rfl, { job with status := "cancelled", completed_at := some now }, ?_, rfl, rfl⟩
  simp [sessionJobsOf, lookupA_insertA_self]

theorem cancel_job_overwrites_completed_at_witness :
    lookupA "j1" (sessionJobsOf "s1" [("s1", [("j1", readyJobEx)])]) = some readyJobEx ∧
    readyJobEx.completed_at = some 20 ∧
    ((cancel_job "s1" "j1" 99 [("s1", [("j1", readyJobEx)])]).1 = true ∧
     ∃ j', lookupA "j1" (sessionJobsOf "s1"
         (cancel_job "s1" "j1" 99 [("s1", [("j1", readyJobEx)])]).2) = some j' ∧
       j'.completed_at = some 99 ∧ j'.status = "cancelled") :=
  ⟨by decide, rfl,
    cancel_job_overwrites_completed_at [("s1", [("j1", readyJobEx)])] "s1" "j1" readyJobEx 99
      (by decide)⟩

/-- C9.  Status and list queries are not read-only: on a never-seen session
id they insert an empty job collection into the store; and the age sweep
never evicts a session whose job collection is empty. -/
theorem queries_insert_empty_session (st : Store) (sid jid : String)
    (h : lookupA sid st = none) :
    (get_job_status sid jid st).2 = insertA sid [] st ∧
    (list_session_jobs sid st).2 = insertA sid [] st ∧
    lookupA sid (insertA sid ([] : Jobs) st) = some [] ∧
    ∀ (cutoff : Nat) (st₂ : Store), (sid, ([] : Jobs)) ∈ st₂ →
      (sid, ([] : Jobs)) ∈ ageSweep cutoff st₂ := by
  refine ⟨?_, ?_, lookupA_insertA_self sid [] st, ?_⟩
  · simp [get_job_status, get_session_jobs, h]
  · simp [list_session_jobs, get_session_jobs, h]
  · intro cutoff st₂ hmem
    simp [ageSweep, List.mem_filter, hmem, sessionAllOld]

theorem queries_insert_empty_session_witness :
    lookupA "fresh" ([("B", [("j1", readyJobEx)])] : Store) = none ∧
    ((get_job_status "fresh" "j9" [("B", [("j1", readyJobEx)])]).2
        = insertA "fresh" [] [("B", [("j1", readyJobEx)])] ∧
     (list_session_jobs "fresh" [("B", [("j1", readyJobEx)])]).2
        = insertA "fresh" [] [("B", [("j1", readyJobEx)])] ∧
     lookupA "fresh" (insertA "fresh" ([] : Jobs) [("B", [("j1", readyJobEx)])]) = some [] ∧
     ∀ (cutoff : Nat) (st₂ : Store), ("fresh", ([] : Jobs)) ∈ st₂ →
       ("fresh", ([] : Jobs)) ∈ ageSweep cutoff st₂) :=
  ⟨by decide, queries_insert_empty_session [("B", [("j1", readyJobEx)])] "fresh" "j9" (by decide)⟩

/-- C3.  Worker failure containment: whenever the body of
`_process_download_link` raises (resolver exception or any later step), the
worker catches it and records the terminal `'error'` state with the
exception's message and a completion timestamp; and for every resolver
outcome the worker returns normally with a `'ready'` or `'error'` job,
never propagating a failure. -/
theorem worker_failure_containment (res : Except String Info) (now : Nat) (job : Job)
    (e : String) (h : processInner res now job = .error e) :
    processDownloadLink res now job
      = { job with status := "error", error := some e, completed_at := some now } ∧
    ∀ res' : Except String Info,
      (processDownloadLink res' now job).status = "ready" ∨
      (processDownloadLink res' now job).status = "error" := by
  constructor
  · simp [processDownloadLink, h]
  · intro res'
    unfold processDownloadLink processInner
    cases res' with
    | error e' => simp
    | ok info => rcases h' : selectDownloadUrl info with _ | du <;> simp [h']

theorem worker_failure_containment_witness :
    processInner (Except.error "HTTP Error 403") 55 readyJobEx
      = Except.error "HTTP Error 403" ∧
    (processDownloadLink (Except.error "HTTP Error 403") 55 readyJobEx
      = { readyJobEx with
          status := "error"
          error := some "HTTP Error 403"
          completed_at := some 55 } ∧
     ∀ res' : Except String Info,
       (processDownloadLink res' 55 readyJobEx).status = "ready" ∨
       (processDownloadLink res' 55 readyJobEx).status = "error") :=
  ⟨rfl, worker_failure_containment (Except.error "HTTP Error 403") 55 readyJobEx
    "HTTP Error 403" rfl⟩

/-- C7.  Quality-to-selector mapping of `_get_format_selector`: a non-empty
explicit `format_id` is returned verbatim; otherwise quality `'audio'` maps
to `'bestaudio/best'`, quality `'best'` maps to `'best'`, and any other
quality string is returned unchanged as a format identifier. -/
theorem format_selector_policy (quality : String) (format_id : Option String) :
    (∀ f, format_id = some f → f ≠ "" → get_format_selector quality format_id = f) ∧
    ((format_id = none ∨ format_id = some "") →
       (quality = "audio" → get_format_selector quality format_id = "bestaudio/best") ∧
       (quality ≠ "audio" → quality = "best" → get_format_selector quality format_id = "best") ∧
       (quality ≠ "audio" → quality ≠ "best" →
         get_format_selector quality format_id = quality)) := by
  constructor
  · rintro f rfl hf
    simp [get_format_selector, String.isEmpty_iff, hf]
  · rintro (rfl | rfl) <;>
      exact ⟨fun hq => by simp [get_format_selector, String.isEmpty_iff, hq],
        fun hq hq' => by simp [get_format_selector, String.isEmpty_iff, hq, hq'],
        fun hq hq' => by simp [get_format_selector, String.isEmpty_iff, hq, hq']⟩

theorem format_selector_policy_witness :
    get_format_selector "audio" (some "137") = "137" ∧
    get_format_selector "audio" none = "bestaudio/best" ∧
    get_format_selector "best" (some "") = "best" ∧
    get_format_selector "720p" none = "720p" :=
  ⟨(format_selector_policy "audio" (some "137")).1 "137" rfl (by decide),
   ((format_selector_policy "audio" none).2 (Or.inl rfl)).1 rfl,
   (((format_selector_policy "best" (some "")).2 (Or.inr rfl)).2.1 (by decide) rfl),
   (((format_selector_policy "720p" none).2 (Or.inl rfl)).2.2 (by decide) (by decide))⟩

theorem find?_first {α : Type} (p : α → Bool) (pre : List α) (f : α) (post : List α)
    (hpre : ∀ g ∈ pre, p g = false) (hf : p f = true) :
    (pre ++ f :: post).find? p = some f := by
  induction pre with
  | nil => simp [List.find?_cons, hf]
  | cons a as ih =>
      have ha := hpre a (List.mem_cons_self a as)
      simp only [List.cons_append, List.find?_cons, ha, cond_false]
      exact ih fun g hg => hpre g (List.mem_cons_of_mem a hg)

/-- C8.  Candidate selection policy: when the resolver info has no truthy
top-level URL, the worker takes the URL of the first format (in resolver
order) whose URL is non-empty; and when no format carries a non-empty URL,
no URL is selected and the job ends in the `'error'` state with the
"no usable URL" message. -/
theorem candidate_selection_policy (info : Info) (hurl : pyTruthy info.url = false) :
    (∀ pre f post, info.formats = pre ++ f :: post →
        (∀ g ∈ pre, pyTruthy g.url = false) → pyTruthy f.url = true →
        selectDownloadUrl info = f.url) ∧
    ((∀ g ∈ info.formats, pyTruthy g.url = false) →
        selectDownloadUrl info = none ∧
        ∀ (now : Nat) (job : Job),
          (processDownloadLink (Except.ok info) now job).status = "error" ∧
          (processDownloadLink (Except.ok info) now job).error
            = some "No se pudo obtener URL de descarga") := by
  constructor
  · intro pre f post hsplit hpre hf
    have hfind : info.formats.find? (fun g => pyTruthy g.url) = some f := by
      rw [hsplit]; exact find?_first _ pre f post hpre hf
    simp [selectDownloadUrl, hurl, hfind, hf]
  · intro hall
    have hfind : info.formats.find? (fun g => pyTruthy g.url) = none :=
      List.find?_eq_none.mpr fun g hg => by simp [hall g hg]
    have hsel : selectDownloadUrl info = none := by
      simp [selectDownloadUrl, hurl, hfind]
    refine ⟨hsel, fun now job => ?_⟩
    simp [processDownloadLink, processInner, hsel]

/-- A format entry whose URL is the empty string (falsy in Python). -/
def fmtEmptyEx : Format := { url := some [] }

/-- A format entry with a usable direct URL. -/
def fmtGoodEx : Format := { url := some ['h', 't', 't', 'p'] }

/-- Resolver info with no top-level URL and two candidate formats. -/
def infoCandidatesEx : Info :=
  { url := none
    formats := [fmtEmptyEx, fmtGoodEx]
    title := some ['t']
    ext := some ['m', 'p', '4']
    filesize := none
    filesize_approx := some 7
    duration := some 9 }

theorem candidate_selection_policy_witness :
    pyTruthy infoCandidatesEx.url = false ∧
    infoCandidatesEx.formats = [fmtEmptyEx] ++ fmtGoodEx :: [] ∧
    (∀ g ∈ [fmtEmptyEx], pyTruthy g.url = false) ∧
    pyTruthy fmtGoodEx.url = true ∧
    selectDownloadUrl infoCandidatesEx = fmtGoodEx.url :=
  ⟨by decide, by decide, by decide, by decide,
    (candidate_selection_policy infoCandidatesEx (by decide)).1 [fmtEmptyEx] fmtGoodEx []
      (by decide) (by decide) (by decide)⟩

theorem mem_of_mem_takeWhile' {α : Type} {p : α → Bool} {l : List α} {a : α}
    (h : a ∈ l.takeWhile p) : a ∈ l := by
  induction l with
  | nil => simp at h
  | cons b bs ih =>
      rw [List.takeWhile_cons] at h
      by_cases hb : p b = true
      · simp only [hb, if_true] at h
        rcases List.mem_cons.1 h with rfl | h'
        · exact List.mem_cons_self _ _
        · exact List.mem_cons_of_mem _ (ih h')
      · simp [hb] at h

theorem mem_of_mem_dropWhile' {α : Type} {p : α → Bool} {l : List α} {a : α}
    (h : a ∈ l.dropWhile p) : a ∈ l := by
  induction l with
  | nil => simp at h
  | cons b bs ih =>
      rw [List.dropWhile_cons] at h
      by_cases hb : p b = true
      · simp only [hb, if_true] at h
        exact List.mem_cons_of_mem _ (ih h)
      · simp only [hb, if_false] at h
        exact h

theorem mem_of_mem_take' {α : Type} {n : Nat} {l : List α} {a : α}
    (h : a ∈ l.take n) : a ∈ l := by
  induction l generalizing n with
  | nil => simp at h
  | cons b bs ih =>
      cases n with
      | zero => simp at h
      | succ m =>
          rcases List.mem_cons.1 h with rfl | h'
          · exact List.mem_cons_self _ _
          · exact List.mem_cons_of_mem _ (ih h')

theorem rsplitDot_mem_fst {l : List Char} {c : Char} (h : c ∈ (rsplitDot l).1) : c ∈ l := by
  unfold rsplitDot at h
  rw [List.span_eq_take_drop] at h
  rcases hd : l.reverse.dropWhile (fun c => c ≠ '.') with _ | ⟨d, nameRev⟩
  · rw [hd] at h; exact h
  · rw [hd] at h
    simp only [List.mem_reverse] at h
    have : c ∈ l.reverse.dropWhile (fun c => c ≠ '.') := by
      rw [hd]; exact List.mem_cons_of_mem _ h
    exact List.mem_reverse.1 (mem_of_mem_dropWhile' this)

theorem rsplitDot_mem_snd {l : List Char} {c : Char} (h : c ∈ (rsplitDot l).2) : c ∈ l := by
  unfold rsplitDot at h
  rw [List.span_eq_take_drop] at h
  rcases hd : l.reverse.dropWhile (fun c => c ≠ '.') with _ | ⟨d, nameRev⟩
  · rw [hd] at h; simp at h
  · rw [hd] at h
    simp only [List.mem_reverse] at h
    exact List.mem_reverse.1 (mem_of_mem_takeWhile' h)

theorem takeWhile_all_append_cons (p : Char → Bool) (xs : List Char) (y : Char)
    (ys : List Char) (hxs : ∀ x ∈ xs, p x = true) (hy : p y = false) :
    (xs ++ y :: ys).takeWhile p = xs := by
  induction xs with
  | nil => simp [List.takeWhile_cons, hy]
  | cons a as ih =>
      have ha := hxs a (List.mem_cons_self a as)
      simp only [List.cons_append, List.takeWhile_cons, ha, if_true]
      rw [ih fun x hx => hxs x (List.mem_cons_of_mem a hx)]

theorem dropWhile_all_append_cons (p : Char → Bool) (xs : List Char) (y : Char)
    (ys : List Char) (hxs : ∀ x ∈ xs, p x = true) (hy : p y = false) :
    (xs ++ y :: ys).dropWhile p = y :: ys := by
  induction xs with
  | nil => simp [List.dropWhile_cons, hy]
  | cons a as ih =>
      have ha := hxs a (List.mem_cons_self a as)
      simp only [List.cons_append, List.dropWhile_cons, ha, if_true]
      exact ih fun x hx => hxs x (List.mem_cons_of_mem a hx)

/-- `rsplit` at the last dot of `a ++ '.' :: b` recovers `(a, b)` when `b`
itself is dot-free. -/
theorem rsplitDot_append (a b : List Char) (hb : '.' ∉ b) :
    rsplitDot (a ++ '.' :: b) = (a, b) := by
  have hrev : (a ++ '.' :: b).reverse = b.reverse ++ '.' :: a.reverse := by
    simp
  have hall : ∀ x ∈ b.reverse, (fun c => decide (c ≠ '.')) x = true := by
    intro x hx
    have : x ∈ b := List.mem_reverse.1 hx
    simp only [decide_eq_true_iff]
    exact fun hEq => hb (hEq ▸ this)
  have hdotF : (fun c => decide (c ≠ '.')) '.' = false := by simp
  unfold rsplitDot
  rw [List.span_eq_take_drop, hrev,
    takeWhile_all_append_cons _ _ _ _ hall hdotF,
    dropWhile_all_append_cons _ _ _ _ hall hdotF]
  simp

/-- The element-level reading of `stripBad`. -/
theorem mem_stripBad {l : List Char} {c : Char} :
    c ∈ stripBad l ↔ c ∈ l ∧ c ∉ BAD_CHARS := by
  simp [stripBad, List.mem_filter]

/-- No output of `sanitize_filename` contains a stripped character. -/
theorem sanitize_filename_no_bad (f : List Char) :
    ∀ c ∈ sanitize_filename f, c ∉ BAD_CHARS := by
  intro c hc
  unfold sanitize_filename at hc
  by_cases hl : (stripBad f).length > 100
  · simp only [hl, if_true] at hc
    rcases List.mem_append.1 hc with h | h
    · exact (mem_stripBad.1 (rsplitDot_mem_fst (mem_of_mem_take' h))).2
    · by_cases he : ((rsplitDot (stripBad f)).2).isEmpty
      · simp [he] at h
      · simp only [he, if_false] at h
        rcases List.mem_cons.1 h with rfl | h'
        · decide
        · exact (mem_stripBad.1 (rsplitDot_mem_snd h')).2
  · simp only [hl, if_false] at hc
    exact (mem_stripBad.1 hc).2

/-- C6.  Filename sanitization: the sanitized form of `title.ext` contains
none of the characters `<>:"/\|?*`; when the stripped name still exceeds
100 characters the result is the first 90 characters of the stripped base
name with the stripped extension reattached (with its dot, when the
extension is non-empty); a stripped name of at most 100 characters is
returned as is. -/
theorem sanitize_filename_spec (title ext : List Char) (hdot : '.' ∉ ext) :
    (∀ c ∈ sanitize_filename (title ++ '.' :: ext), c ∉ BAD_CHARS) ∧
    ((stripBad (title ++ '.' :: ext)).length ≤ 100 →
        sanitize_filename (title ++ '.' :: ext) = stripBad (title ++ '.' :: ext)) ∧
    (100 < (stripBad (title ++ '.' :: ext)).length →
        sanitize_filename (title ++ '.' :: ext)
          = (stripBad title).take 90 ++
            (if (stripBad ext).isEmpty then [] else '.' :: stripBad ext)) := by
  have hsplit : stripBad (title ++ '.' :: ext) = stripBad title ++ '.' :: stripBad ext := by
    have hkeep : (fun c => !decide (c ∈ BAD_CHARS)) '.' = true := by decide
    simp [stripBad, List.filter_append, List.filter_cons, hkeep]
  have hdot' : '.' ∉ stripBad ext := fun h => hdot (mem_stripBad.1 h).1
  refine ⟨sanitize_filename_no_bad _, fun hle => ?_, fun hgt => ?_⟩
  · unfold sanitize_filename
    simp [Nat.not_lt.2 hle]
  · unfold sanitize_filename
    simp only [hgt, if_true]
    rw [hsplit, rsplitDot_append _ _ hdot']

/-- A 150-character base name with extension `mp4` and one illegal
character. -/
def longTitleEx : List Char := '<' :: List.replicate 150 'a'

set_option maxRecDepth 4000 in
theorem sanitize_filename_spec_witness :
    ('.' ∉ ['m', 'p', '4']) ∧
    100 < (stripBad (longTitleEx ++ '.' :: ['m', 'p', '4'])).length ∧
    sanitize_filename (longTitleEx ++ '.' :: ['m', 'p', '4'])
      = (stripBad longTitleEx).take 90 ++
        (if (stripBad ['m', 'p', '4']).isEmpty then []
         else '.' :: stripBad ['m', 'p', '4']) :=
  ⟨by decide, by decide,
    (sanitize_filename_spec longTitleEx ['m', 'p', '4'] (by decide)).2.2 (by decide)⟩

/-- Prop-level reading of the all-old test. -/
theorem sessionAllOld_iff (cutoff : Nat) (jobs : Jobs) :
    sessionAllOld cutoff jobs = true ↔ ∀ je ∈ jobs, je.2.created_at ≤ cutoff := by
  simp [sessionAllOld, List.all_eq_true, Nat.not_lt]

/-- C4.  Age-bound retention: the age sweep evicts a session entry exactly
when its job collection is non-empty and every job's `created_at` is at
least `SESSION_TIMEOUT_HOURS` old; in particular a session holding even one
job newer than the cutoff survives with its whole job collection, old jobs
included. -/
theorem age_sweep_retention (now : Nat) (st : Store) (sid : String) (jobs : Jobs)
    (h : (sid, jobs) ∈ st) :
    ((sid, jobs) ∉ ageSweep (cutoffOf now) st ↔
       jobs ≠ [] ∧ ∀ je ∈ jobs, je.2.created_at ≤ cutoffOf now) ∧
    ((∃ je ∈ jobs, cutoffOf now < je.2.created_at) →
       (sid, jobs) ∈ ageSweep (cutoffOf now) st) := by
  have hmem : (sid, jobs) ∈ ageSweep (cutoffOf now) st ↔
      ¬(jobs ≠ [] ∧ ∀ je ∈ jobs, je.2.created_at ≤ cutoffOf now) := by
    simp only [ageSweep, List.mem_filter, h, true_and, Bool.not_eq_true']
    constructor
    · intro hp hand
      rcases hand with ⟨hne, hall⟩
      have h1 : sessionAllOld (cutoffOf now) jobs = true := (sessionAllOld_iff _ _).2 hall
      have h2 : jobs.isEmpty = false := by
        cases jobs
        · exact absurd rfl hne
        · rfl
      rw [h1, h2] at hp
      simp at hp
    · intro hnot
      by_cases h1 : sessionAllOld (cutoffOf now) jobs = true
      · have hjobs : jobs = [] := by
          by_contra hne
          exact hnot ⟨hne, (sessionAllOld_iff _ _).1 h1⟩
        subst hjobs
        rfl
      · rw [Bool.eq_false_iff.2 h1]
        rfl
  constructor
  · rw [hmem, not_not]
  · rintro ⟨je, hje, hlt⟩
    rw [hmem]
    rintro ⟨-, hall⟩
    exact absurd (hall je hje) (Nat.not_le.2 hlt)

/-- A job 25 hours old at witness time `now = 360000` seconds. -/
def oldJobEx : Job := { readyJobEx with id := "jOld", created_at := 270000 }

/-- A job 1 hour old at witness time `now = 360000` seconds. -/
def newJobEx : Job := { readyJobEx with id := "jNew", created_at := 356400 }

/-- A session collection mixing a stale job and a recent one. -/
def mixedJobsEx : Jobs := [("jOld", oldJobEx), ("jNew", newJobEx)]

theorem age_sweep_retention_witness :
    (("s1", mixedJobsEx) ∈ ([("s1", mixedJobsEx)] : Store)) ∧
    (∃ je ∈ mixedJobsEx, cutoffOf 360000 < je.2.created_at) ∧
    ("s1", mixedJobsEx) ∈ ageSweep (cutoffOf 360000) [("s1", mixedJobsEx)] :=
  ⟨by decide, by decide,
    (age_sweep_retention 360000 [("s1", mixedJobsEx)] "s1" mixedJobsEx (by decide)).2
      (by decide)⟩

/-- `keyLe` is the order of Mathlib's `String` linear order. -/
theorem keyLe_iff_le (a b : String) : keyLe a b ↔ a ≤ b := by
  rw [keyLe, ← String.toList, ← String.toList, ← String.le_iff_toList_le]

theorem map_fst_filter {α β : Type} (q : α → Bool) (l : List (α × β)) :
    (l.filter fun p => q p.1).map Prod.fst = (l.map Prod.fst).filter q := by
  induction l with
  | nil => rfl
  | cons a l ih => by_cases h : q a.1 <;> simp [List.filter_cons, h, ih]

/-- C5.  Capacity-bound eviction: with distinct session keys, when the
session count exceeds the maximum the sweep keeps exactly `maxS` sessions,
namely those whose key survives dropping the first `count - maxS` keys in
ascending sort order; every evicted key sorts at or below every surviving
key.  At or below the maximum, the sweep is the identity. -/
theorem capacity_sweep_spec (maxS : Nat) (st : Store)
    (hnd : (st.map Prod.fst).Nodup) :
    (st.length ≤ maxS → capacitySweep maxS st = st) ∧
    (maxS < st.length →
       (capacitySweep maxS st).length = maxS ∧
       (∀ p ∈ st, (p ∈ capacitySweep maxS st ↔
          p.1 ∈ (List.insertionSort keyLe (st.map Prod.fst)).drop (st.length - maxS))) ∧
       (∀ p ∈ st, p ∉ capacitySweep maxS st →
          ∀ q ∈ capacitySweep maxS st, keyLe p.1 q.1)) := by
  constructor
  · intro hle
    unfold capacitySweep
    rw [if_neg (by omega)]
  · intro hgt
    have hgt' : st.length > maxS := hgt
    set ks := st.map Prod.fst with hks
    set srt := List.insertionSort keyLe ks with hsrt
    set d := st.length - maxS with hd
    have hperm : srt.Perm ks := List.perm_insertionSort keyLe ks
    have hnds : srt.Nodup := hperm.nodup_iff.2 hnd
    have hsplit : srt.take d ++ srt.drop d = srt := List.take_append_drop d srt
    have hdisj : ∀ a ∈ srt.take d, a ∉ srt.drop d := by
      intro a h1 h2
      have hnd2 : (srt.take d ++ srt.drop d).Nodup := by rw [hsplit]; exact hnds
      exact List.disjoint_of_nodup_append hnd2 h1 h2
    have heq : capacitySweep maxS st = st.filter fun p => !decide (p.1 ∈ srt.take d) := by
      unfold capacitySweep
      rw [if_pos hgt']
    have hmemiff : ∀ p ∈ st, (p ∈ capacitySweep maxS st ↔ p.1 ∈ srt.drop d) := by
      intro p hp
      have hmks : p.1 ∈ ks := List.mem_map_of_mem Prod.fst hp
      have hmsrt : p.1 ∈ srt.take d ++ srt.drop d := by
        rw [hsplit]; exact hperm.mem_iff.2 hmks
      rw [heq, List.mem_filter]
      constructor
      · rintro ⟨-, hpred⟩
        have hnt : p.1 ∉ srt.take d := by simpa using hpred
        rcases List.mem_append.1 hmsrt with h | h
        · exact absurd h hnt
        · exact h
      · intro hdr
        refine ⟨hp, ?_⟩
        have hnt : p.1 ∉ srt.take d := fun hta => hdisj _ hta hdr
        simpa using hnt
    refine ⟨?_, hmemiff, ?_⟩
    · have hmap : (capacitySweep maxS st).map Prod.fst
          = ks.filter fun k => !decide (k ∈ srt.take d) := by
        rw [heq, hks]
        exact map_fst_filter (fun k => !decide (k ∈ srt.take d)) st
      have hpf : (ks.filter fun k => !decide (k ∈ srt.take d)).length
          = (srt.filter fun k => !decide (k ∈ srt.take d)).length :=
        ((hperm.filter _).length_eq).symm
      have hfil : srt.filter (fun k => !decide (k ∈ srt.take d)) = srt.drop d := by
        have h1 : (srt.take d).filter (fun k => !decide (k ∈ srt.take d)) = [] := by
          refine List.filter_eq_nil_iff.2 ?_
          intro a ha
          simp [ha]
        have h2 : (srt.drop d).filter (fun k => !decide (k ∈ srt.take d)) = srt.drop d := by
          refine List.filter_eq_self.2 ?_
          intro a ha
          have hnt : a ∉ srt.take d := fun h => hdisj _ h ha
          simpa using hnt
        have hstep : (srt.take d ++ srt.drop d).filter (fun k => !decide (k ∈ srt.take d))
            = srt.drop d := by
          rw [List.filter_append, h1, h2, List.nil_append]
        rw [hsplit] at hstep
        exact hstep
      have hlen : (capacitySweep maxS st).length = (srt.drop d).length := by
        have hml := congrArg List.length hmap
        rw [List.length_map] at hml
        rw [hml, hpf, hfil]
      have hsl : srt.length = st.length := by
        rw [hperm.length_eq, hks, List.length_map]
      rw [hlen, List.length_drop, hsl]
      omega
    · intro p hp hpn q hq
      have hpt : p.1 ∈ srt.take d := by
        have hmks : p.1 ∈ ks := List.mem_map_of_mem Prod.fst hp
        have hmsrt : p.1 ∈ srt.take d ++ srt.drop d := by
          rw [hsplit]; exact hperm.mem_iff.2 hmks
        rcases List.mem_append.1 hmsrt with h | h
        · exact h
        · exact absurd ((hmemiff p hp).2 h) hpn
      have hqs : q ∈ st := by
        rw [heq] at hq
        exact (List.mem_filter.1 hq).1
      have hqd : q.1 ∈ srt.drop d := (hmemiff q hqs).1 hq
      have hsorted : List.Sorted keyLe srt := List.sorted_insertionSort keyLe ks
      have hpw : List.Pairwise keyLe (srt.take d ++ srt.drop d) := by
        rw [hsplit]; exact hsorted
      exact (List.pairwise_append.1 hpw).2.2 p.1 hpt q.1 hqd

/-- A store holding three sessions, one over a capacity of two. -/
def capStEx : Store := [("b", mixedJobsEx), ("a", []), ("c", [])]

theorem capacity_sweep_spec_witness :
    ((capStEx.map Prod.fst).Nodup) ∧ 2 < capStEx.length ∧
    (capacitySweep 2 capStEx).length = 2 :=
  ⟨by decide, by decide, ((capacity_sweep_spec 2 capStEx (by decide)).2 (by decide)).1⟩

end Sessions
